import Mathlib

/-!
Verification of the memoire semantic-memory pipeline.

This file shallowly embeds the core of the repository — the Python string
primitives used by the chunker, the fallback sentence splitter, the semantic
chunker's control flow, the context resolver's fuzzy matching, the grouped
recall, the embedding cache, the synthesizer's fallback chain, and the
ingestion curator's apply pipeline — and proves or refutes the specified
properties about them.

External collaborators (the generative provider, the SQLite/Qdrant stores,
the system clock) are modelled as explicit environment parameters: each
provider or store call that can fail is represented by an `Except`/`Bool`
valued field of an environment record, and Python exceptions are modelled by
`Except` propagation.  Store mutation is modelled by explicit state passing
of an in-memory `Store` value.
-/

namespace Memoire

/-! ### Python string primitives

`str.split()` (no argument) splits on runs of whitespace and drops empty
pieces; `str.strip()` removes leading and trailing whitespace; `str.split(sep)`
splits on every non-overlapping occurrence of `sep`, left to right.  These are
the primitives `chunking.py` and `contextualization.py` build on. -/

/-- The ASCII whitespace characters recognized by Python's `str.split()` and
`str.strip()`. -/
def isPySpace (c : Char) : Bool :=
  c == ' ' || c == '\t' || c == '\n' || c == '\r' || c == '\x0b' || c == '\x0c'

/-- Scanner for Python `s.split()`: collects the maximal runs of
non-whitespace characters; `cur` holds the reversed characters of the run
being scanned. -/
def pyWordsGo : List Char → List Char → List (List Char)
  | [], cur => if cur.isEmpty then [] else [cur.reverse]
  | c :: rest, cur =>
    if isPySpace c then
      if cur.isEmpty then pyWordsGo rest [] else cur.reverse :: pyWordsGo rest []
    else
      pyWordsGo rest (c :: cur)

/-- Python `s.split()`: split on whitespace runs, discarding empty pieces. -/
def pyWords (s : String) : List String :=
  (pyWordsGo s.data []).map (fun l => ⟨l⟩)

/-- `len(s.split())`, the word count used throughout `chunking.py`. -/
def wordCount (s : String) : Nat := (pyWords s).length

/-- Python `str.strip()` on a character list. -/
def pyStripList (l : List Char) : List Char :=
  ((l.dropWhile isPySpace).reverse.dropWhile isPySpace).reverse

/-- Python `s.strip()`. -/
def pyStrip (s : String) : String := ⟨pyStripList s.data⟩

/-- The separator `". "` that `_fallback_chunking` splits sentences on. -/
def dotSep : List Char := ['.', ' ']

/-- Python `s.split(". ")`, accumulator-style: `cur` holds the reversed
characters of the piece being scanned.  The scan is greedy left-to-right on
non-overlapping occurrences of the separator, exactly like Python's
`str.split`. -/
def pySplitDotGo : List Char → List Char → List (List Char)
  | [], cur => [cur.reverse]
  | [c], cur => [(c :: cur).reverse]
  | c1 :: c2 :: rest, cur =>
    if c1 = '.' ∧ c2 = ' ' then cur.reverse :: pySplitDotGo rest []
    else pySplitDotGo (c2 :: rest) (c1 :: cur)

/-- Python `content.split(". ")` as a list of strings. -/
def pySplitDot (s : String) : List String :=
  (pySplitDotGo s.data []).map (fun l => ⟨l⟩)

/-- Join character-list pieces with the `". "` separator (the inverse
direction of `pySplitDotGo`). -/
def joinSepList : List (List Char) → List Char
  | [] => []
  | [p] => p
  | p :: ps => p ++ dotSep ++ joinSepList ps

/-- Join string pieces with the `". "` separator. -/
def joinDot : List String → String
  | [] => ""
  | [s] => s
  | s :: rest => s ++ ". " ++ joinDot rest

/-! ### Errors raised by the Python code

Python exceptions are modelled by `Except PyError`; the constructors record
the kinds of failure the pipeline distinguishes. -/

inductive PyError where
  /-- A transport-level provider failure (network, quota, timeout). -/
  | providerError (msg : String)
  /-- The provider returned output violating the requested JSON schema. -/
  | schemaViolation (msg : String)
  /-- A storage (SQLite/Qdrant) operation raised. -/
  | storeError (msg : String)
  /-- Python `ValueError` (invalid input). -/
  | valueError (msg : String)
deriving Repr, DecidableEq

/-! ### Semantic chunker (`chunking.py`, class `SemanticChunker`)

The chunk dictionaries produced by `chunk_content` / `_fallback_chunking`
are modelled by the `Chunk` structure; the generative provider calls made by
`_semantic_chunking`, `_extract_summary` and `_extract_concepts` are
modelled as environment functions from the prompt content to an `Except`
outcome (a `.ok` carries the already-JSON-parsed payload). -/

structure Chunk where
  content : String
  semantic_summary : String
  key_concepts : List String
  chunk_type : String
  word_count : Nat
deriving Repr, DecidableEq

/-- The chunk-size configuration read by `SemanticChunker.__init__`, with the
config defaults `chunking.min_chunk_words = 20`, `chunking.max_chunk_words
= 150`. -/
structure ChunkingConfig where
  min_chunk_words : Nat := 20
  max_chunk_words : Nat := 150
deriving Repr, DecidableEq

/-- Provider outcomes for the three Gemini calls a `SemanticChunker` can
make.  `semanticResp` bundles `generate_content` + `json.loads` +
`result.get("chunks", [])` of `_semantic_chunking`: a `.error` covers both a
transport failure and malformed JSON. -/
structure ChunkerEnv where
  cfg : ChunkingConfig := {}
  semanticResp : String → Except PyError (List Chunk)
  summaryResp : String → Except PyError String
  conceptsResp : String → Except PyError String

/-- `SemanticChunker._extract_summary`: heuristic for short content, provider
call with truncation fallback otherwise; never raises. -/
def extractSummary (env : ChunkerEnv) (content : String) : String :=
  if wordCount content ≤ 30 then
    if content.length > 100 then content.take 100 ++ "..." else content
  else
    match env.summaryResp content with
    | .ok t => pyStrip t
    | .error _ => content.take 100 ++ "..."

/-- `SemanticChunker._extract_concepts`: provider call, with a
first-long-words fallback on failure; never raises. -/
def extractConcepts (env : ChunkerEnv) (content : String) : List String :=
  match env.conceptsResp content with
  | .ok t =>
    let pieces := ((pyStrip t).splitOn ",").filter (fun c => pyStrip c ≠ "")
    (pieces.map (fun c => ((pyStrip c).replace "•" "").replace "-" "")).take 5
  | .error _ =>
    let words := (pyWords content).take 10
    (words.filter (fun w => w.length > 3)).take 3

/-- `SemanticChunker._semantic_chunking`: ask the provider for a semantic
split; on any failure the exception is re-raised (`raise e`) — there is no
fallback on this path. -/
def semanticChunking (env : ChunkerEnv) (content : String) :
    Except PyError (List Chunk) :=
  match env.semanticResp content with
  | .ok chunks => .ok chunks
  | .error e => .error e

/-- `SemanticChunker.chunk_content`: single atomic chunk at or below
`max_chunk_words`, otherwise `_semantic_chunking`. -/
def chunkContent (env : ChunkerEnv) (content : String) :
    Except PyError (List Chunk) :=
  let wc := wordCount content
  if wc ≤ env.cfg.max_chunk_words then
    .ok [{ content := content
           semantic_summary := extractSummary env content
           key_concepts := extractConcepts env content
           chunk_type := "atomic"
           word_count := wc }]
  else
    semanticChunking env content

/-- The chunk record `_fallback_chunking` appends for an accumulated
`current_chunk`. -/
def mkFallbackChunk (cur : String) : Chunk :=
  { content := pyStrip cur
    semantic_summary := cur.take 50 ++ "..."
    key_concepts := []
    chunk_type := "fallback"
    word_count := wordCount cur }

/-- The sentence-accumulation loop of `SemanticChunker._fallback_chunking`:
pack sentences while the running word count stays within `maxW`, flush the
accumulated chunk when adding the next sentence would exceed it. -/
def fallbackLoop (maxW : Nat) : List String → String → List Chunk → List Chunk
  | [], cur, chunks =>
    if cur ≠ "" then chunks ++ [mkFallbackChunk cur] else chunks
  | s :: rest, cur, chunks =>
    let test := if cur ≠ "" then cur ++ ". " ++ s else s
    if wordCount test > maxW ∧ cur ≠ "" then
      fallbackLoop maxW rest s (chunks ++ [mkFallbackChunk cur])
    else
      fallbackLoop maxW rest test chunks

/-- `SemanticChunker._fallback_chunking`: split on `". "` and accumulate. -/
def fallbackChunking (maxW : Nat) (content : String) : List Chunk :=
  fallbackLoop maxW (pySplitDot content) "" []

/-- The string neither starts nor ends with Python whitespace, so
`str.strip()` leaves it unchanged. -/
def noEdgeSpace (s : String) : Bool :=
  (s.data.head?.all fun c => !isPySpace c) &&
  (s.data.getLast?.all fun c => !isPySpace c)

set_option maxRecDepth 8000

/-- A concrete word repeated `n` times, space-separated. -/
def repeatWordA : Nat → String
  | 0 => ""
  | 1 => "a"
  | n + 2 => "a " ++ repeatWordA (n + 1)

/-- A single sentence of 151 words — more than the default
`max_chunk_words = 150`. -/
def oversizedSentence : String := repeatWordA 151

/-- A 152-word input: an oversized first sentence, then a second sentence
that begins with a space (its `". "` separator is followed by another
space). -/
def chunkFallbackCex : String := oversizedSentence ++ ".  b"

/-- A chunker environment in which every Gemini call fails. -/
def failingChunkerEnv : ChunkerEnv :=
  { semanticResp := fun _ => .error (.providerError "semantic chunking failed")
    summaryResp := fun _ => .error (.providerError "summary failed")
    conceptsResp := fun _ => .error (.providerError "concepts failed") }

/-! ### Association-list model of Python dicts

Only lookup, overwrite-insertion, and key-removal matter to the verified
properties; iteration order of the dict is not modelled. -/

/-- Python `d.get(k)` / `d[k]`-with-presence-check. -/
def dictFind {α : Type} (m : List (String × α)) (k : String) : Option α :=
  (m.find? (fun p => p.1 = k)).map (fun p => p.2)

/-- Python `d[k] = v` (last write wins on lookup). -/
def dictInsert {α : Type} (m : List (String × α)) (k : String) (v : α) :
    List (String × α) :=
  (k, v) :: m.filter (fun p => p.1 ≠ k)

/-- Python `d.pop(k, None)`. -/
def dictRemove {α : Type} (m : List (String × α)) (k : String) :
    List (String × α) :=
  m.filter (fun p => p.1 ≠ k)

/-! ### Embedding cache (`cache.py`, class `EmbeddingCache`)

Each call receives the current clock value (`datetime.now()`) explicitly,
in the same unit as the TTL.  The MD5 digest of `f"{model}:{text}"` is
modelled — up to the digest's collision resistance — by the string
`model ++ ":" ++ text` itself. -/

/-- Cache state: `cache` and `timestamps` mirror the dicts `_cache` and
`_timestamps`; `ttl` mirrors `self.ttl`.  The vector payload type `V` is
abstract because the cache never inspects vectors. -/
structure EmbeddingCache (V : Type) where
  cache : List (String × V)
  timestamps : List (String × Nat)
  ttl : Nat

namespace EmbeddingCache

/-- `EmbeddingCache._generate_key`. -/
def generateKey (text model : String) : String := model ++ ":" ++ text

/-- `EmbeddingCache._is_valid`: the entry is valid while
`now - inserted_at < ttl`. -/
def isValid {V : Type} (c : EmbeddingCache V) (now : Nat) (key : String) :
    Bool :=
  match dictFind c.timestamps key with
  | none => false
  | some ts => now - ts < c.ttl

/-- `EmbeddingCache._remove`: drop the entry from both dicts. -/
def remove {V : Type} (c : EmbeddingCache V) (key : String) :
    EmbeddingCache V :=
  { c with
    cache := dictRemove c.cache key
    timestamps := dictRemove c.timestamps key }

/-- `EmbeddingCache.get`: the hit (or `none`) together with the cache state
after the call — a `get` that finds an expired entry removes it. -/
def get {V : Type} (c : EmbeddingCache V) (now : Nat) (text model : String) :
    Option V × EmbeddingCache V :=
  let key := generateKey text model
  match dictFind c.cache key with
  | some v => if c.isValid now key then (some v, c) else (none, c.remove key)
  | none => (none, c)

/-- `EmbeddingCache.set`: store the vector and stamp the key with the
current time. -/
def set {V : Type} (c : EmbeddingCache V) (now : Nat) (text model : String)
    (v : V) : EmbeddingCache V :=
  let key := generateKey text model
  { c with
    cache := dictInsert c.cache key v
    timestamps := dictInsert c.timestamps key now }

end EmbeddingCache

/-! ### Data model (`models/__init__.py`)

Only the fields read by the verified components are modelled; timestamps,
anchors, custom-field maps and embedding payloads are owned by external
collaborators and never inspected by the code under verification. -/

structure MemoryFragment where
  id : String
  project_id : String
  content : String
  category : String := "general"
  tags : List String := []
  source : String := "user"
  context_ids : List String := []
deriving Repr, DecidableEq

structure MemoryContext where
  id : String
  project_id : String
  name : String
  description : String := ""
  fragment_ids : List String := []
deriving Repr, DecidableEq

structure Project where
  id : String
  name : String
  description : String
deriving Repr, DecidableEq

/-- A similarity-search hit.  The float similarity score is carried opaquely
by the real `SearchResult`; none of the verified properties reads it, so it
is not modelled. -/
structure SearchResult where
  fragment : MemoryFragment
deriving Repr, DecidableEq

/-! ### In-memory model of the SQLite/Qdrant store

`nextId` models the `uuid.uuid4()` source of fresh identifiers. -/

structure Store where
  fragments : List MemoryFragment
  contexts : List MemoryContext
  nextId : Nat
deriving Repr, DecidableEq

/-- `storage.get_context` (returns `None` both for a missing row and on a
database error). -/
def Store.getContext (s : Store) (cid : String) : Option MemoryContext :=
  s.contexts.find? (fun c => c.id = cid)

/-- `storage.list_contexts_by_project`. -/
def Store.listContextsByProject (s : Store) (pid : String) :
    List MemoryContext :=
  s.contexts.filter (fun c => c.project_id = pid)

/-! ### Context resolver (`contextualization.py`, class `ContextResolver`) -/

/-- Python `s.lower()` (ASCII model; the verified names are ASCII). -/
def pyLower (s : String) : String := ⟨s.data.map Char.toLower⟩

/-- Python `s.replace(a, b)` for single-character `a` and `b`, which is a
character-wise map. -/
def pyReplaceChar (s : String) (a b : Char) : String :=
  ⟨s.data.map (fun c => if c = a then b else c)⟩

/-- Python `s.replace(a, "")` for a single-character `a`, which deletes
every occurrence. -/
def pyRemoveChar (s : String) (a : Char) : String :=
  ⟨s.data.filter (fun c => c ≠ a)⟩

/-- `ContextResolver._normalize_context_name`:
`name.lower().replace("_", " ").replace("-", " ").strip()`. -/
def normalizeContextName (name : String) : String :=
  pyStrip (pyReplaceChar (pyReplaceChar (pyLower name) '_' ' ') '-' ' ')

/-- Prefix test on character lists. -/
def listIsPrefixOf : List Char → List Char → Bool
  | [], _ => true
  | _ :: _, [] => false
  | a :: as, b :: bs => a = b && listIsPrefixOf as bs

/-- Contiguous-sublist test on character lists. -/
def listIsInfix (small : List Char) : List Char → Bool
  | [] => small.isEmpty
  | c :: rest => listIsPrefixOf small (c :: rest) || listIsInfix small rest

/-- Python `small in big` on strings: contiguous substring test. -/
def strIn (small big : String) : Bool := listIsInfix small.data big.data

/-- `ContextResolver._contexts_match`: normalized equality, containment, or
at-least-half overlap of the token sets relative to the smaller one.  The
source compares `overlap / min_words >= 0.5` in float arithmetic; for token
sets of any realistic size the comparison is exact and equivalent to
`2 * overlap ≥ min_words`.  Python's `set(...)` is modelled by `List.dedup`
(only membership and cardinality are consumed). -/
def contextsMatch (name1 name2 : String) : Bool :=
  let n1 := normalizeContextName name1
  let n2 := normalizeContextName name2
  if n1 = n2 then true
  else if strIn n1 n2 || strIn n2 n1 then true
  else
    let words1 := (pyWords n1).dedup
    let words2 := (pyWords n2).dedup
    if words1.isEmpty || words2.isEmpty then false
    else
      decide (2 * (words1.filter (fun w => decide (w ∈ words2))).length ≥
        min words1.length words2.length)

/-- The matching rule as the specification words it: normalize both names
(lowercase, underscore/hyphen to space, trim); match when the normalized
strings are equal, or one contains the other, or the token-set overlap
divided by the smaller token-set size is at least one half (the division
requires a nonempty smaller set). -/
def contextsMatchSpec (name1 name2 : String) : Prop :=
  let n1 := normalizeContextName name1
  let n2 := normalizeContextName name2
  let t1 := (pyWords n1).toFinset
  let t2 := (pyWords n2).toFinset
  n1 = n2 ∨
  (∃ p s, n2 = p ++ n1 ++ s) ∨ (∃ p s, n1 = p ++ n2 ++ s) ∨
  (0 < min t1.card t2.card ∧
    (((t1 ∩ t2).card : ℚ) / ((min t1.card t2.card : ℕ) : ℚ) ≥ 1 / 2))

/-- The chunk metadata the resolver reads when creating a context. -/
structure ChunkData where
  content : String := ""
  key_concepts : List String := []
  context_reasoning : String := ""
deriving Repr, DecidableEq

/-- Python `", ".join`. -/
def joinComma : List String → String
  | [] => ""
  | [s] => s
  | s :: rest => s ++ ", " ++ joinComma rest

/-- Provider/store outcomes for a `ContextResolver`. -/
structure ResolverEnv where
  descriptionResp : String → Except PyError String
  createContextFails : String → Bool

/-- `ContextResolver._generate_context_description`: provider call with a
deterministic fallback description built from the first three key
concepts; never raises. -/
def generateContextDescription (env : ResolverEnv) (context_name : String)
    (chunk : ChunkData) : String :=
  match env.descriptionResp context_name with
  | .ok t => pyRemoveChar (pyRemoveChar (pyStrip t) '"') '\x27'
  | .error _ =>
    "Contexto que agrupa información relacionada con " ++
      joinComma (chunk.key_concepts.take 3) ++ "."

/-- Service-level `create_context` (`contexts.create_context` +
`storage.create_context`): raises on a storage error, otherwise appends the
new context and returns its fresh id. -/
def createContextOp (fail : String → Bool) (store : Store)
    (pid name description : String) : Except PyError (String × Store) :=
  if fail name then .error (.storeError "create_context")
  else
    let cid := "context-" ++ toString store.nextId
    .ok (cid,
      { store with
        contexts := store.contexts ++
          [{ id := cid, project_id := pid, name := name,
             description := description }]
        nextId := store.nextId + 1 })

/-- `ContextResolver._resolve_single_context`: first fuzzy match against
the cached contexts wins (cache order); otherwise create a new context and
append it to the cache (`None` on creation failure, which is caught). -/
def resolveSingleContext (env : ResolverEnv) (store : Store)
    (context_name project_id : String) (existing : List MemoryContext)
    (chunk : ChunkData) : Option String × List MemoryContext × Store :=
  match existing.find? (fun ctx => contextsMatch context_name ctx.name) with
  | some ctx => (some ctx.id, existing, store)
  | none =>
    let description := generateContextDescription env context_name chunk
    match createContextOp env.createContextFails store project_id
        context_name description with
    | .error _ => (none, existing, store)
    | .ok (cid, store2) =>
      (some cid,
       existing ++ [{ id := cid, project_id := project_id,
                      name := context_name, description := "" }],
       store2)

/-- A resolver environment whose provider is down and whose store accepts
writes. -/
def idleResolverEnv : ResolverEnv :=
  { descriptionResp := fun _ => .error (.providerError "unavailable")
    createContextFails := fun _ => false }

/-- An existing context named `"project_planning"`. -/
def planningContext : MemoryContext :=
  { id := "c1", project_id := "p1", name := "project_planning"
    description := "Planning notes" }

/-! ### Grouped recall (`search.py`, `search_memory`)

The query is embedded once and `storage.search_fragments` is run per
project with that embedding; the per-project hit lists are therefore
modelled as a function from project id to hits.  The grouped result — a
dict of dicts in Python — is modelled as nested association lists in
insertion order. -/

/-- The fragment's first context id, or the `"unassigned"` sentinel. -/
def firstContextId (f : MemoryFragment) : String :=
  match f.context_ids with
  | [] => "unassigned"
  | c :: _ => c

/-- Append a hit to its context bucket, creating the bucket at the end on
first use (Python dict-of-lists insertion). -/
def groupAppend (m : List (String × List SearchResult)) (k : String)
    (sr : SearchResult) : List (String × List SearchResult) :=
  match m with
  | [] => [(k, [sr])]
  | (k2, l) :: rest =>
    if k2 = k then (k2, l ++ [sr]) :: rest
    else (k2, l) :: groupAppend rest k sr

/-- The inner grouping loop of `search_memory`: bucket each hit by its
fragment's first context id. -/
def groupByContext : List SearchResult → List (String × List SearchResult) →
    List (String × List SearchResult)
  | [], acc => acc
  | sr :: rest, acc =>
    groupByContext rest (groupAppend acc (firstContextId sr.fragment) sr)

/-- Python `d[k] = v` preserving insertion order (replace in place, append
if absent). -/
def updateAssoc {α : Type} (m : List (String × α)) (k : String) (v : α) :
    List (String × α) :=
  match m with
  | [] => [(k, v)]
  | (k2, v2) :: rest =>
    if k2 = k then (k2, v) :: rest else (k2, v2) :: updateAssoc rest k v

/-- The per-project loop of `search_memory`: projects with an empty hit
list contribute no entry at all. -/
def searchMemoryLoop (searchFn : String → List SearchResult) :
    List String → List (String × List (String × List SearchResult)) →
    List (String × List (String × List SearchResult))
  | [], acc => acc
  | pid :: rest, acc =>
    if (searchFn pid).isEmpty then searchMemoryLoop searchFn rest acc
    else
      searchMemoryLoop searchFn rest
        (updateAssoc acc pid (groupByContext (searchFn pid) []))

/-- `search_memory`, from the point where the target project ids and the
query embedding are fixed. -/
def searchMemoryGrouped (searchFn : String → List SearchResult)
    (targets : List String) :
    List (String × List (String × List SearchResult)) :=
  searchMemoryLoop searchFn targets []

/-- The per-project hits used by the C7 witness: only `"p1"` has a hit. -/
def recallWitnessFn : String → List SearchResult := fun pid =>
  if pid = "p1" then
    [{ fragment := { id := "f1", project_id := "p1", content := "nota",
                     context_ids := ["ctx9"] } }]
  else []

/-! ### Synthesizer (`synthesis.py`, class `MemorySynthesizer`)

The two provider calls (contextual prompt, legacy prompt) are modelled as
environment functions of the information their prompts render; a `.ok`
carries the JSON-parsed synthesis.  Float literals (`0.3` confidence) are
modelled as rationals; the code never computes with them. -/

/-- The parsed synthesis dictionary.  `synthesis_type`, `projects_used` and
`contexts_used` are the metadata keys `synthesize_contextual` adds after a
successful structured parse. -/
structure Synthesis where
  synthesized_response : String
  confidence : ℚ
  information_coverage : String
  gaps : List String
  patterns_identified : List String
  fragments_relevance : List (String × String)
  synthesis_type : Option String := none
  projects_used : Option Nat := none
  contexts_used : Option Nat := none
deriving Repr, DecidableEq

/-- One context block of the contextual prompt: resolved name/description
(with the `context_id` and `"No description available."` fallbacks) plus
the hits listed under it. -/
structure ContextualPromptCtx where
  context_id : String
  context_name : String
  context_description : String
  results : List SearchResult
deriving Repr, DecidableEq

/-- One project block of the contextual prompt. -/
structure ContextualPromptProject where
  project_id : String
  project_name : String
  project_description : String
  contexts : List ContextualPromptCtx
deriving Repr, DecidableEq

/-- Provider/store collaborators of a `MemorySynthesizer`. -/
structure SynthEnv where
  getProject : String → Option Project
  getContext : String → Option MemoryContext
  contextualResp : List ContextualPromptProject → Except PyError Synthesis
  legacyResp : List SearchResult → Except PyError Synthesis

/-- The information `synthesize_contextual` renders into its prompt while
walking the grouped results (`memory_service.get_project` /
`get_context` return `None` rather than raising on store errors). -/
def renderContextualPrompt (getProject : String → Option Project)
    (getContext : String → Option MemoryContext)
    (grouped : List (String × List (String × List SearchResult))) :
    List ContextualPromptProject :=
  grouped.map (fun pr =>
    { project_id := pr.1
      project_name :=
        match getProject pr.1 with
        | some p => p.name
        | none => pr.1
      project_description :=
        match getProject pr.1 with
        | some p => p.description
        | none => "No description available."
      contexts := pr.2.map (fun cg =>
        { context_id := cg.1
          context_name :=
            match getContext cg.1 with
            | some c => c.name
            | none => cg.1
          context_description :=
            match getContext cg.1 with
            | some c => c.description
            | none => "No description available."
          results := cg.2 }) })

/-- The `all_contexts_info` dict accumulated while rendering: one entry per
distinct context id (only its size is consumed, as `contexts_used`). -/
def allContextsInfo (getContext : String → Option MemoryContext)
    (grouped : List (String × List (String × List SearchResult))) :
    List (String × String × String) :=
  ((grouped.map (fun pr => pr.2.map (fun cg => cg.1))).flatten).dedup.map
    (fun cid =>
      match getContext cid with
      | some c => (cid, c.name, c.description)
      | none => (cid, cid, "No description available."))

/-- Flattening of grouped results for the legacy path. -/
def flattenGrouped
    (grouped : List (String × List (String × List SearchResult))) :
    List SearchResult :=
  (grouped.map (fun pr => (pr.2.map (fun cg => cg.2)).flatten)).flatten

/-- The hard-coded low-confidence fallback of `synthesize_legacy`, built
only from the number of retrieved fragments. -/
def fallbackSynthesis (query : String) (n : Nat) : Synthesis :=
  { synthesized_response :=
      "Found " ++ toString n ++ " relevant fragments related to \x27"
        ++ query ++ "\x27. "
        ++ "Manual review recommended due to synthesis processing limitations."
    confidence := 3 / 10
    information_coverage := "partial"
    gaps := ["synthesis processing error"]
    patterns_identified := []
    fragments_relevance := [] }

/-- `MemorySynthesizer.synthesize_legacy`: provider call, with the
count-based fallback on any failure; never raises. -/
def synthesizeLegacy (resp : List SearchResult → Except PyError Synthesis)
    (query : String) (fragments : List SearchResult) : Synthesis :=
  match resp fragments with
  | .ok s => s
  | .error _ => fallbackSynthesis query fragments.length

/-- `MemorySynthesizer.synthesize_contextual`: render the grouped results,
call the provider; on success add the contextual metadata, on any failure
flatten the grouping and retry through `synthesize_legacy`. -/
def synthesizeContextual (env : SynthEnv) (query : String)
    (grouped : List (String × List (String × List SearchResult))) :
    Synthesis :=
  match env.contextualResp
      (renderContextualPrompt env.getProject env.getContext grouped) with
  | .ok s =>
    { s with
      synthesis_type := some "contextual"
      projects_used := some grouped.length
      contexts_used := some (allContextsInfo env.getContext grouped).length }
  | .error _ => synthesizeLegacy env.legacyResp query (flattenGrouped grouped)

/-- A synthesizer environment in which both provider calls fail and the
store holds nothing. -/
def failingSynthEnv : SynthEnv :=
  { getProject := fun _ => none
    getContext := fun _ => none
    contextualResp := fun _ => .error (.schemaViolation "contextual parse")
    legacyResp := fun _ => .error (.providerError "legacy call") }

/-- A single search hit used by the C9 witness. -/
def synthWitnessHit : SearchResult :=
  { fragment := { id := "f1", project_id := "p1", content := "nota" } }

/-! ### Ingestion curator (`ingestion_curator.py`, class `IngestionCurator`)

`curate_and_chunk` is embedded as a state-passing function over `Store`;
every external call outcome (similarity search, context listing, the
structured decision call, batch delete, context creation, fragment
storage, membership update) is supplied by a `CurateEnv`.  A Python
exception is an `Except.error` carrying the store as mutated so far —
there is no rollback. -/

structure ContextToCreate where
  name : String
  description : String
deriving Repr, DecidableEq

structure FragmentToCreate where
  content : String
  context_name : String
deriving Repr, DecidableEq

/-- The JSON object parsed from the decision response, before the
`setdefault` calls fill in missing keys. -/
structure CurationDecisionJson where
  contexts_to_create : Option (List ContextToCreate) := none
  fragments_to_create : Option (List FragmentToCreate) := none
  ids_to_delete : Option (List String) := none
deriving Repr, DecidableEq

/-- The decision after `setdefault('contexts_to_create', [])` etc. -/
structure CurationDecision where
  contexts_to_create : List ContextToCreate
  fragments_to_create : List FragmentToCreate
  ids_to_delete : List String
deriving Repr, DecidableEq

/-- The result dict of `_apply_curation_decision`. -/
structure CurateResult where
  created_fragment_ids : List String
  created_context_ids : List String
  deleted_ids : List String
deriving Repr, DecidableEq

/-- The request-dependent information `_build_curation_prompt_with_context`
renders into its prompt: the new content, (id, content) of each candidate
fragment, and (name, description) of each existing context.  The fixed
Spanish template around them carries no request-dependent information. -/
structure CurationPrompt where
  new_content : String
  existing_fragments : List (String × String)
  existing_contexts : List (String × String)
deriving Repr, DecidableEq

def buildCurationPrompt (content : String) (frags : List SearchResult)
    (ctxs : List MemoryContext) : CurationPrompt :=
  { new_content := content
    existing_fragments := frags.map (fun r => (r.fragment.id, r.fragment.content))
    existing_contexts := ctxs.map (fun c => (c.name, c.description)) }

/-- Outcomes of every external call `curate_and_chunk` can make.
`searchResp` is the embed-plus-vector-search of step 1; `listContextsOk`
is whether `list_contexts_by_project` raised; `generateDecision` is the
provider decision call plus `json.loads`.  The remaining fields inject
store failures per operation. -/
structure CurateEnv where
  searchResp : Except PyError (List SearchResult)
  listContextsOk : Bool
  generateDecision : CurationPrompt → Except PyError CurationDecisionJson
  deleteFails : Bool
  createContextFails : String → Bool
  storeFragmentFails : String → Bool
  updateContextFails : String → Bool
  maxContentLength : Nat := 10000

/-- `IngestionCurator._get_curation_decision`: on success apply the three
`setdefault`s; on any failure re-raise the same exception (`raise e`). -/
def getCurationDecision (resp : Except PyError CurationDecisionJson) :
    Except PyError CurationDecision :=
  match resp with
  | .ok j =>
    .ok { contexts_to_create := j.contexts_to_create.getD []
          fragments_to_create := j.fragments_to_create.getD []
          ids_to_delete := j.ids_to_delete.getD [] }
  | .error e => .error e

/-- Python `s[:n]` (character slice). -/
def pyTake (s : String) (n : Nat) : String := ⟨s.data.take n⟩

/-- Memory-layer `delete_fragments` (`fragments.delete_fragments` over
`storage.delete_fragments`): never raises; `True` for an empty id list,
`False` on a store error; on success deletes every fragment whose id is
listed (the SQL delete filters by id only) and reports whether any row
was deleted. -/
def deleteFragmentsOp (fail : Bool) (store : Store) (ids : List String) :
    Bool × Store :=
  if ids.isEmpty then (true, store)
  else if fail then (false, store)
  else
    (store.fragments.any (fun f => ids.contains f.id),
     { store with
       fragments := (store.fragments.filter (fun f => ¬ids.contains f.id)) })

/-- Service-level `store_fragment` (`fragments.store_fragment`): raises
`ValueError` on empty content, truncates over-long content, then embeds
and stores — either external call may raise (injected by `fail`). -/
def storeFragmentOp (fail : String → Bool) (maxContentLength : Nat)
    (store : Store) (pid content category source : String)
    (context_ids : List String) : Except PyError (String × Store) :=
  if pyStrip content = "" then
    .error (.valueError "Fragment content cannot be empty")
  else
    let content := pyTake content maxContentLength
    if fail content then .error (.storeError "store_fragment")
    else
      let fid := "fragment-" ++ toString store.nextId
      .ok (fid,
        { store with
          fragments := store.fragments ++
            [{ id := fid, project_id := pid, content := content,
               category := category, source := source,
               context_ids := context_ids }]
          nextId := store.nextId + 1 })

/-- `storage.update_context_fragments`: `False` on error or when no row
matched, otherwise replaces the context's member list (`fragment_count`
and `updated_at` are not modelled). -/
def updateContextFragmentsOp (fail : Bool) (store : Store) (cid : String)
    (ids : List String) : Bool × Store :=
  if fail then (false, store)
  else if (store.getContext cid).isSome then
    (true,
     { store with
       contexts := (store.contexts.map
         (fun c => if c.id = cid then { c with fragment_ids := ids } else c)) })
  else (false, store)

/-- Generic dict-of-lists append (Python `defaultdict(list)` usage). -/
def multiDictAppend {α : Type} (m : List (String × List α)) (k : String)
    (x : α) : List (String × List α) :=
  match m with
  | [] => [(k, [x])]
  | (k2, l) :: rest =>
    if k2 = k then (k2, l ++ [x]) :: rest
    else (k2, l) :: multiDictAppend rest k x

/-- Apply step 2: create each context whose name and description are
truthy and whose name is not yet in the name→id map; a creation failure
is caught and that entry skipped. -/
def applyContextsLoop (env : CurateEnv) (pid : String) :
    List ContextToCreate → List (String × String) → List String → Store →
    List (String × String) × List String × Store
  | [], cmap, created, store => (cmap, created, store)
  | c :: rest, cmap, created, store =>
    if c.name ≠ "" ∧ c.description ≠ "" ∧ dictFind cmap c.name = none then
      match createContextOp env.createContextFails store pid c.name
          c.description with
      | .ok (cid, store2) =>
        applyContextsLoop env pid rest (dictInsert cmap c.name cid)
          (created ++ [cid]) store2
      | .error _ => applyContextsLoop env pid rest cmap created store
    else applyContextsLoop env pid rest cmap created store

/-- Apply step 3: for each fragment entry with truthy content and context
name, resolve the context id from the map — lazily creating (or reusing)
the `"general"` context when absent; that creation is *not* inside a
`try` block, so its failure aborts the whole apply — then store the
fragment (a storage failure there is caught and the entry skipped),
tracking created ids and grouping them by context id. -/
def applyFragmentsLoop (env : CurateEnv) (pid : String) :
    List FragmentToCreate → List (String × String) → List String →
    List (String × List String) → Store →
    Except PyError (List String × List (String × List String)) × Store
  | [], _cmap, created, byCtx, store => (.ok (created, byCtx), store)
  | f :: rest, cmap, created, byCtx, store =>
    if f.content ≠ "" ∧ pyStrip f.content ≠ "" ∧ f.context_name ≠ "" then
      match
        (match dictFind cmap f.context_name with
         | some cid => Except.ok (cid, cmap, store)
         | none =>
           match dictFind cmap "general" with
           | some gid => Except.ok (gid, cmap, store)
           | none =>
             match createContextOp env.createContextFails store pid "general"
                 "Contenedor para fragmentos sin un contexto específico." with
             | .error e => Except.error e
             | .ok (gid, store2) =>
               Except.ok (gid, dictInsert cmap "general" gid, store2)) with
      | .error e => (.error e, store)
      | .ok (cid, cmap2, store2) =>
        match storeFragmentOp env.storeFragmentFails env.maxContentLength
            store2 pid f.content "general" "curated_ingestion" [cid] with
        | .ok (fid, store3) =>
          applyFragmentsLoop env pid rest cmap2 (created ++ [fid])
            (multiDictAppend byCtx cid fid) store3
        | .error _ => applyFragmentsLoop env pid rest cmap2 created byCtx store2
    else applyFragmentsLoop env pid rest cmap created byCtx store

/-- Apply step 4: for each context that received new fragments, fetch its
current membership, union with the new ids (`list(set(...))`, modelled up
to membership by `List.dedup`) and write it back; failures (and the
returned boolean) are ignored. -/
def updateMembershipLoop (env : CurateEnv) :
    List (String × List String) → Store → Store
  | [], store => store
  | (cid, newIds) :: rest, store =>
    if newIds.isEmpty then updateMembershipLoop env rest store
    else
      match store.getContext cid with
      | some ctx =>
        updateMembershipLoop env rest
          (updateContextFragmentsOp (env.updateContextFails cid) store cid
            ((ctx.fragment_ids ++ newIds).dedup)).2
      | none => updateMembershipLoop env rest store

/-- `IngestionCurator._apply_curation_decision`: delete, create contexts
(map seeded from the existing ones), create fragments, update
memberships; the result reports `deleted_ids` as the decision's
`ids_to_delete` verbatim, without consulting the delete's boolean
outcome. -/
def applyCurationDecision (env : CurateEnv) (store : Store)
    (decision : CurationDecision) (pid : String)
    (existing : List MemoryContext) : Except PyError CurateResult × Store :=
  let store1 :=
    if decision.ids_to_delete ≠ [] then
      (deleteFragmentsOp env.deleteFails store decision.ids_to_delete).2
    else store
  let seed := existing.foldl (fun m c => dictInsert m c.name c.id) []
  match applyContextsLoop env pid decision.contexts_to_create seed [] store1 with
  | (cmap, created_context_ids, store2) =>
    match applyFragmentsLoop env pid decision.fragments_to_create cmap [] []
        store2 with
    | (.error e, store3) => (.error e, store3)
    | (.ok (created_fragment_ids, byCtx), store3) =>
      (.ok { created_fragment_ids := created_fragment_ids
             created_context_ids := created_context_ids
             deleted_ids := decision.ids_to_delete },
       updateMembershipLoop env byCtx store3)

/-- `IngestionCurator.curate_and_chunk`: search failures degrade to an
empty candidate list and context-listing failures to an empty context
list (both are caught); a failure of the decision call propagates to the
caller before any mutation. -/
def curateAndChunk (env : CurateEnv) (store : Store) (content pid : String) :
    Except PyError CurateResult × Store :=
  let relevant_fragments :=
    match env.searchResp with
    | .ok rs => rs
    | .error _ => []
  let existing_contexts :=
    if env.listContextsOk then store.listContextsByProject pid else []
  match getCurationDecision (env.generateDecision
      (buildCurationPrompt content relevant_fragments existing_contexts)) with
  | .error e => (.error e, store)
  | .ok decision => applyCurationDecision env store decision pid existing_contexts

/-- Boolean success test for `Except`. -/
def exceptOk {ε α : Type} : Except ε α → Bool
  | .ok _ => true
  | .error _ => false

/-- A curator environment in which only the decision call fails. -/
def decisionFailEnv : CurateEnv :=
  { searchResp := .ok []
    listContextsOk := true
    generateDecision := fun _ => .error (.schemaViolation "curation decision")
    deleteFails := false
    createContextFails := fun _ => false
    storeFragmentFails := fun _ => false
    updateContextFails := fun _ => false }

/-- A curator environment in which the similarity search raises and the
context listing raises, while the decision call and every store write
succeed. -/
def listFailEnv : CurateEnv :=
  { searchResp := .error (.providerError "search failed")
    listContextsOk := false
    generateDecision := fun _ => .ok {}
    deleteFails := false
    createContextFails := fun _ => false
    storeFragmentFails := fun _ => false
    updateContextFails := fun _ => false }

/-- A curator environment whose batch delete fails while everything else
succeeds. -/
def deleteFailEnv : CurateEnv :=
  { searchResp := .ok []
    listContextsOk := true
    generateDecision := fun _ => .ok { ids_to_delete := some ["f1"] }
    deleteFails := true
    createContextFails := fun _ => false
    storeFragmentFails := fun _ => false
    updateContextFails := fun _ => false }

/-- A stored fragment the C10 witness asks to delete. -/
def fragF1 : MemoryFragment :=
  { id := "f1", project_id := "p1", content := "contenido antiguo" }

/-- A context holding one fragment, for the C3 witness. -/
def ctxC1 : MemoryContext :=
  { id := "c1", project_id := "p1", name := "tema", fragment_ids := ["a"] }

/-- A curator environment in which every operation succeeds. -/
def allOkCurateEnv : CurateEnv :=
  { searchResp := .ok []
    listContextsOk := true
    generateDecision := fun _ => .ok {}
    deleteFails := false
    createContextFails := fun _ => false
    storeFragmentFails := fun _ => false
    updateContextFails := fun _ => false }

theorem pySplitDotGo_ne_nil (l cur : List Char) : pySplitDotGo l cur ≠ [] := by
  induction l, cur using pySplitDotGo.induct with
  | case1 cur => simp [pySplitDotGo]
  | case2 c cur => simp [pySplitDotGo]
  | case3 c1 c2 rest cur h ih =>
    rw [pySplitDotGo, if_pos h]; simp
  | case4 c1 c2 rest cur h ih =>
    rw [pySplitDotGo, if_neg h]; exact ih

theorem joinSepList_cons (p : List Char) (ps : List (List Char)) (h : ps ≠ []) :
    joinSepList (p :: ps) = p ++ dotSep ++ joinSepList ps := by
  cases ps with
  | nil => exact absurd rfl h
  | cons q qs => rfl

theorem pySplitDotGo_join (l cur : List Char) :
    joinSepList (pySplitDotGo l cur) = cur.reverse ++ l := by
  induction l, cur using pySplitDotGo.induct with
  | case1 cur => simp [pySplitDotGo, joinSepList]
  | case2 c cur => simp [pySplitDotGo, joinSepList]
  | case3 c1 c2 rest cur h ih =>
    obtain ⟨h1, h2⟩ := h
    subst h1; subst h2
    rw [pySplitDotGo, if_pos ⟨rfl, rfl⟩,
      joinSepList_cons _ _ (pySplitDotGo_ne_nil _ _), ih]
    simp [dotSep]
  | case4 c1 c2 rest cur h ih =>
    rw [pySplitDotGo, if_neg h, ih]
    simp

theorem strMk_append (a b : List Char) : (⟨a⟩ : String) ++ ⟨b⟩ = ⟨a ++ b⟩ := rfl

theorem joinDot_cons₂ (s t : String) (l : List String) :
    joinDot (s :: t :: l) = s ++ ". " ++ joinDot (t :: l) := rfl

theorem joinSepList_eq_join (l : List (List Char)) (h : l ≠ []) :
    joinDot (l.map (fun p => (⟨p⟩ : String))) = ⟨joinSepList l⟩ := by
  induction l with
  | nil => exact absurd rfl h
  | cons p ps ih =>
    cases ps with
    | nil => rfl
    | cons q qs =>
      have hrec := ih (by simp)
      rw [List.map_cons] at hrec ⊢
      rw [List.map_cons, joinDot_cons₂, hrec,
        joinSepList_cons p (q :: qs) (by simp),
        show (". " : String) = ⟨dotSep⟩ from rfl, strMk_append, strMk_append]

/-- Rejoining the pieces of `content.split(". ")` with `". "` reconstructs
the content exactly. -/
theorem joinDot_pySplitDot (s : String) : joinDot (pySplitDot s) = s := by
  rw [pySplitDot, joinSepList_eq_join _ (pySplitDotGo_ne_nil _ _),
    pySplitDotGo_join]
  simp

theorem strData_append (a b : String) : (a ++ b).data = a.data ++ b.data := rfl

theorem strAppend_assoc (a b c : String) : a ++ b ++ c = a ++ (b ++ c) := by
  cases a with | mk la =>
  cases b with | mk lb =>
  cases c with | mk lc =>
  show (⟨la ++ lb ++ lc⟩ : String) = ⟨la ++ (lb ++ lc)⟩
  rw [List.append_assoc]

theorem strNe_empty_iff (s : String) : s ≠ "" ↔ s.data ≠ [] :=
  not_congr String.ext_iff

theorem dropWhile_eq_self_of_head (p : Char → Bool) (l : List Char)
    (h : l.head?.all (fun c => !p c) = true) : l.dropWhile p = l := by
  cases l with
  | nil => rfl
  | cons c t =>
    have hc : p c = false := by
      have h2 : (!p c) = true := h
      cases hpc : p c
      · rfl
      · rw [hpc] at h2; exact absurd h2 (by decide)
    simp [List.dropWhile_cons, hc]

theorem pyStrip_eq_self (s : String) (h : noEdgeSpace s = true) :
    pyStrip s = s := by
  rw [noEdgeSpace, Bool.and_eq_true] at h
  have h1 : s.data.dropWhile isPySpace = s.data :=
    dropWhile_eq_self_of_head _ _ h.1
  have h2 : s.data.reverse.dropWhile isPySpace = s.data.reverse := by
    apply dropWhile_eq_self_of_head
    rw [List.head?_reverse]
    exact h.2
  show (⟨pyStripList s.data⟩ : String) = s
  rw [pyStripList, h1, h2, List.reverse_reverse]

theorem dotAppend_ne_empty (s t : String) (hs : s ≠ "") :
    s ++ ". " ++ t ≠ "" := by
  rw [strNe_empty_iff] at hs ⊢
  rw [strData_append, strData_append]
  simp [hs]

theorem noEdgeSpace_dotAppend (s t : String) (hs : s ≠ "") (ht : t ≠ "")
    (h1 : noEdgeSpace s = true) (h2 : noEdgeSpace t = true) :
    noEdgeSpace (s ++ ". " ++ t) = true := by
  rw [noEdgeSpace, Bool.and_eq_true] at h1 h2
  have hsd := (strNe_empty_iff s).1 hs
  have htd := (strNe_empty_iff t).1 ht
  have hdata : (s ++ ". " ++ t).data = s.data ++ (dotSep ++ t.data) := by
    rw [strData_append, strData_append, List.append_assoc]; rfl
  rw [noEdgeSpace, Bool.and_eq_true, hdata]
  constructor
  · have hhead : (s.data ++ (dotSep ++ t.data)).head? = s.data.head? := by
      cases hsdata : s.data with
      | nil => exact absurd hsdata hsd
      | cons c u => rfl
    rw [hhead]; exact h1.1
  · have hlast : (s.data ++ (dotSep ++ t.data)).getLast? = t.data.getLast? := by
      obtain ⟨c, hc⟩ := Option.isSome_iff_exists.1
        (show t.data.getLast?.isSome by
          rw [List.getLast?_isSome]; exact htd)
      rw [List.getLast?_append, List.getLast?_append, hc]
      rfl
    rw [hlast]; exact h2.2

/-- Invariant of the `_fallback_chunking` accumulation loop: when every
remaining sentence and the accumulated chunk are nonempty, strip-invariant
and within the word bound, the loop appends a nonempty list of chunks whose
contents rejoin (with `". "`) to the pending text and whose word counts all
stay within the bound. -/
theorem fallbackLoop_spec (maxW : Nat) :
    ∀ (rest : List String) (cur : String) (chunks : List Chunk),
      (∀ s ∈ rest, s ≠ "" ∧ noEdgeSpace s = true ∧ wordCount s ≤ maxW) →
      cur ≠ "" → noEdgeSpace cur = true → wordCount cur ≤ maxW →
      ∃ tail, tail ≠ [] ∧
        fallbackLoop maxW rest cur chunks = chunks ++ tail ∧
        joinDot (tail.map (fun ch => ch.content)) = joinDot (cur :: rest) ∧
        ∀ ch ∈ tail, ch.word_count ≤ maxW := by
  intro rest
  induction rest with
  | nil =>
    intro cur chunks _ hcur hedge hwc
    refine ⟨[mkFallbackChunk cur], by simp, by simp [fallbackLoop, hcur], ?_, ?_⟩
    · simp [mkFallbackChunk, pyStrip_eq_self cur hedge, joinDot]
    · intro ch hch
      rw [List.mem_singleton] at hch
      subst hch
      simpa [mkFallbackChunk] using hwc
  | cons s rest ih =>
    intro cur chunks hgood hcur hedge hwc
    obtain ⟨hs1, hs2, hs3⟩ := hgood s (by simp)
    have hgood' : ∀ x ∈ rest, x ≠ "" ∧ noEdgeSpace x = true ∧ wordCount x ≤ maxW :=
      fun x hx => hgood x (by simp [hx])
    by_cases hc : wordCount (cur ++ ". " ++ s) > maxW
    · have heq : fallbackLoop maxW (s :: rest) cur chunks
          = fallbackLoop maxW rest s (chunks ++ [mkFallbackChunk cur]) := by
        simp only [fallbackLoop, if_pos hcur]
        rw [if_pos ⟨hc, hcur⟩]
      obtain ⟨tail, htne, hloop, hjoin, hbound⟩ :=
        ih s (chunks ++ [mkFallbackChunk cur]) hgood' hs1 hs2 hs3
      refine ⟨mkFallbackChunk cur :: tail, by simp, ?_, ?_, ?_⟩
      · rw [heq, hloop, List.append_assoc]; rfl
      · obtain ⟨t0, ts, rfl⟩ := List.exists_cons_of_ne_nil htne
        simp only [List.map_cons] at hjoin ⊢
        rw [show (mkFallbackChunk cur).content = cur from pyStrip_eq_self cur hedge,
          joinDot_cons₂, hjoin, joinDot_cons₂]
      · intro ch hch
        rcases List.mem_cons.1 hch with hch | hch
        · subst hch; simpa [mkFallbackChunk] using hwc
        · exact hbound ch hch
    · have hne : cur ++ ". " ++ s ≠ "" := dotAppend_ne_empty cur s hcur
      have hedge' := noEdgeSpace_dotAppend cur s hcur hs1 hedge hs2
      have hwc' : wordCount (cur ++ ". " ++ s) ≤ maxW := Nat.le_of_not_lt hc
      have heq : fallbackLoop maxW (s :: rest) cur chunks
          = fallbackLoop maxW rest (cur ++ ". " ++ s) chunks := by
        simp only [fallbackLoop, if_pos hcur]
        rw [if_neg (fun hcon => hc hcon.1)]
      obtain ⟨tail, htne, hloop, hjoin, hbound⟩ :=
        ih (cur ++ ". " ++ s) chunks hgood' hne hedge' hwc'
      refine ⟨tail, htne, by rw [heq, hloop], ?_, hbound⟩
      rw [hjoin]
      cases rest with
      | nil => simp [joinDot]
      | cons r rs =>
        rw [joinDot_cons₂, joinDot_cons₂, joinDot_cons₂]
        simp only [strAppend_assoc]

/-- Correctness of `_fallback_chunking` on inputs whose `". "`-separated
sentences are nonempty, strip-invariant and within the word bound. -/
theorem fallbackChunking_spec (maxW : Nat) (content : String)
    (hsent : ∀ s ∈ pySplitDot content,
      s ≠ "" ∧ noEdgeSpace s = true ∧ wordCount s ≤ maxW) :
    joinDot ((fallbackChunking maxW content).map (fun ch => ch.content))
        = content ∧
    ∀ ch ∈ fallbackChunking maxW content, ch.word_count ≤ maxW := by
  have hne : pySplitDot content ≠ [] := by
    rw [pySplitDot]
    simp [pySplitDotGo_ne_nil]
  obtain ⟨s, rest, hsr⟩ := List.exists_cons_of_ne_nil hne
  obtain ⟨hs1, hs2, hs3⟩ := hsent s (by rw [hsr]; simp)
  have hgood' : ∀ x ∈ rest, x ≠ "" ∧ noEdgeSpace x = true ∧ wordCount x ≤ maxW :=
    fun x hx => hsent x (by rw [hsr]; simp [hx])
  have hstep : fallbackChunking maxW content = fallbackLoop maxW rest s [] := by
    rw [fallbackChunking, hsr]
    simp only [fallbackLoop]
    rw [if_neg (by simp), if_neg (by simp)]
  obtain ⟨tail, htne, hloop, hjoin, hbound⟩ :=
    fallbackLoop_spec maxW rest s [] hgood' hs1 hs2 hs3
  rw [hstep, hloop]
  simp only [List.nil_append]
  exact ⟨by rw [hjoin, ← hsr, joinDot_pySplitDot], hbound⟩

/-- C5, counterexample: at the default `max_chunk_words = 150`, the input
`chunkFallbackCex` (word count 152 > 150) makes `_fallback_chunking` emit a
non-final chunk of 151 words — exceeding the bound, and not an undersized
final remainder — and rejoining the chunk contents with the `". "`
separator does not reconstruct the input, because the second chunk's
leading space was removed by `strip()`. -/
theorem fallback_chunking_claim_counterexample :
    wordCount chunkFallbackCex > 150 ∧
    (fallbackChunking 150 chunkFallbackCex).map (fun ch => ch.word_count)
        = [151, 1] ∧
    joinDot ((fallbackChunking 150 chunkFallbackCex).map (fun ch => ch.content))
        ≠ chunkFallbackCex :=
  ⟨by decide, by decide, by decide⟩

/-- C5, amended: for text above `max_chunk_words` each of whose
`". "`-separated sentences is nonempty, has no leading or trailing
whitespace, and has word count at most `max_chunk_words`, the fallback
splitter's chunks concatenated with their `". "` separators reconstruct the
input exactly and no chunk's word count exceeds `max_chunk_words`. -/
theorem fallback_chunking_reconstruction_amended (maxW : Nat) (content : String)
    (_hlong : wordCount content > maxW)
    (hsent : ∀ s ∈ pySplitDot content,
      s ≠ "" ∧ noEdgeSpace s = true ∧ wordCount s ≤ maxW) :
    joinDot ((fallbackChunking maxW content).map (fun ch => ch.content))
        = content ∧
    ∀ ch ∈ fallbackChunking maxW content, ch.word_count ≤ maxW :=
  fallbackChunking_spec maxW content hsent

/-- Witness for the amended C5 theorem at `max_chunk_words = 3` and the
input `"a b c. d e. f g h"`. -/
theorem fallback_chunking_reconstruction_amended_witness :
    joinDot ((fallbackChunking 3 "a b c. d e. f g h").map (fun ch => ch.content))
        = "a b c. d e. f g h" ∧
    (fallbackChunking 3 "a b c. d e. f g h").map (fun ch => ch.word_count)
        = [3, 2, 3] :=
  ⟨(fallback_chunking_reconstruction_amended 3 "a b c. d e. f g h"
      (by decide) (by decide)).1, by decide⟩

/-- C4, evaluation of the code at the failing input: on a 152-word input
(above the default `max_chunk_words = 150`) with a failing provider,
`chunk_content` propagates the provider error — `_semantic_chunking` ends
in `raise e` — instead of returning the deterministic fallback chunks,
although `_fallback_chunking` on the same input would have produced chunks
(it is dead code: nothing in the repository calls it). -/
theorem chunk_content_error_not_fallback :
    wordCount chunkFallbackCex > failingChunkerEnv.cfg.max_chunk_words ∧
    chunkContent failingChunkerEnv chunkFallbackCex
        = .error (.providerError "semantic chunking failed") ∧
    (fallbackChunking failingChunkerEnv.cfg.max_chunk_words
        chunkFallbackCex).length = 2 :=
  ⟨by decide, by rfl, by decide⟩

theorem dictFind_cons_self {α : Type} (p : String × α) (rest : List (String × α))
    (k : String) (h : p.1 = k) : dictFind (p :: rest) k = some p.2 := by
  simp [dictFind, List.find?_cons, h]

theorem dictFind_cons_ne {α : Type} (p : String × α) (rest : List (String × α))
    (k : String) (h : p.1 ≠ k) : dictFind (p :: rest) k = dictFind rest k := by
  have hd : (decide (p.1 = k)) = false := by simpa using h
  simp [dictFind, List.find?_cons, hd]

theorem dictFind_insert_self {α : Type} (m : List (String × α)) (k : String)
    (v : α) : dictFind (dictInsert m k v) k = some v := by
  simp [dictFind, dictInsert]

theorem dictFind_filter_ne {α : Type} (m : List (String × α)) (k k2 : String)
    (h : k2 ≠ k) :
    dictFind (m.filter (fun p => p.1 ≠ k)) k2 = dictFind m k2 := by
  induction m with
  | nil => rfl
  | cons p rest ih =>
    rw [List.filter_cons]
    by_cases hp : p.1 = k
    · rw [if_neg (by simp [hp]), ih,
        dictFind_cons_ne p rest k2 (by rw [hp]; exact fun hh => h hh.symm)]
    · rw [if_pos (by simp [hp])]
      by_cases hk2 : p.1 = k2
      · rw [dictFind_cons_self p _ k2 hk2, dictFind_cons_self p rest k2 hk2]
      · rw [dictFind_cons_ne p _ k2 hk2, dictFind_cons_ne p rest k2 hk2, ih]

theorem dictFind_insert_ne {α : Type} (m : List (String × α)) (k k2 : String)
    (v : α) (h : k2 ≠ k) :
    dictFind (dictInsert m k v) k2 = dictFind m k2 := by
  rw [dictInsert, dictFind_cons_ne _ _ _ (fun hh => h hh.symm)]
  exact dictFind_filter_ne m k k2 h

theorem dictFind_remove_self {α : Type} (m : List (String × α)) (k : String) :
    dictFind (dictRemove m k) k = none := by
  induction m with
  | nil => rfl
  | cons p rest ih =>
    rw [dictRemove, List.filter_cons]
    by_cases hp : p.1 = k
    · rw [if_neg (by simp [hp])]; exact ih
    · rw [if_pos (by simp [hp]), dictFind_cons_ne p _ k hp]; exact ih

theorem dictFind_remove_ne {α : Type} (m : List (String × α)) (k k2 : String)
    (h : k2 ≠ k) : dictFind (dictRemove m k) k2 = dictFind m k2 :=
  dictFind_filter_ne m k k2 h

/-- C8: for any text, model and vector, `set` then `get` at the same
instant returns the vector (for any positive TTL); once the entry's age
satisfies `now2 - now ≥ ttl`, `get` returns `none` and removes the entry
from both the value dict and the timestamp dict; `set` never evicts any
other key and `get` never touches any key other than the one it was asked
for — there is no size-based eviction. -/
theorem embedding_cache_roundtrip_expiry {V : Type} (c : EmbeddingCache V)
    (now now2 : Nat) (t m : String) (v : V) (httl : 0 < c.ttl) :
    ((c.set now t m v).get now t m).1 = some v ∧
    (c.ttl ≤ now2 - now →
      ((c.set now t m v).get now2 t m).1 = none ∧
      dictFind (((c.set now t m v).get now2 t m).2).cache
        (EmbeddingCache.generateKey t m) = none ∧
      dictFind (((c.set now t m v).get now2 t m).2).timestamps
        (EmbeddingCache.generateKey t m) = none) ∧
    (∀ k, k ≠ EmbeddingCache.generateKey t m →
      dictFind ((c.set now t m v).cache) k = dictFind c.cache k ∧
      dictFind ((c.set now t m v).timestamps) k = dictFind c.timestamps k) ∧
    (∀ (now3 : Nat) (t2 m2 k : String),
      k ≠ EmbeddingCache.generateKey t2 m2 →
      dictFind ((c.get now3 t2 m2).2).cache k = dictFind c.cache k ∧
      dictFind ((c.get now3 t2 m2).2).timestamps k = dictFind c.timestamps k) := by
  refine ⟨?_, ?_, ?_, ?_⟩
  · simp only [EmbeddingCache.get, EmbeddingCache.set, EmbeddingCache.isValid,
      dictFind_insert_self, Nat.sub_self]
    simp [httl]
  · intro hexp
    have hnotlt : ¬(now2 - now < c.ttl) := Nat.not_lt.2 hexp
    simp only [EmbeddingCache.get, EmbeddingCache.set, EmbeddingCache.isValid,
      dictFind_insert_self]
    simp only [EmbeddingCache.remove]
    simp [hnotlt, dictFind_remove_self]
  · intro k hk
    exact ⟨dictFind_insert_ne _ _ _ _ hk, dictFind_insert_ne _ _ _ _ hk⟩
  · intro now3 t2 m2 k hk
    rw [EmbeddingCache.get]
    cases hfind : dictFind c.cache (EmbeddingCache.generateKey t2 m2) with
    | none => simp only [hfind]; exact ⟨trivial, trivial⟩
    | some v2 =>
      simp only [hfind]
      cases hval : c.isValid now3 (EmbeddingCache.generateKey t2 m2) with
      | true => simp only [hval, if_true]; exact ⟨trivial, trivial⟩
      | false =>
        simp only [hval, if_false, EmbeddingCache.remove]
        exact ⟨dictFind_remove_ne _ _ _ hk, dictFind_remove_ne _ _ _ hk⟩

/-- Witness for C8 at a concrete cache (`ttl = 2`), time `0`, expiry check
at time `5`, text `"hola"`, model `"model-a"`, vector `7`. -/
theorem embedding_cache_roundtrip_expiry_witness :
    (((⟨[], [], 2⟩ : EmbeddingCache Nat).set 0 "hola" "model-a" 7).get
        0 "hola" "model-a").1 = some 7 ∧
    (((⟨[], [], 2⟩ : EmbeddingCache Nat).set 0 "hola" "model-a" 7).get
        5 "hola" "model-a").1 = none :=
  have h := embedding_cache_roundtrip_expiry (⟨[], [], 2⟩ : EmbeddingCache Nat)
    0 5 "hola" "model-a" 7 (by decide)
  ⟨h.1, (h.2.1 (by decide)).1⟩

theorem listIsPrefixOf_iff (small : List Char) :
    ∀ l, listIsPrefixOf small l = true ↔ ∃ t, l = small ++ t := by
  induction small with
  | nil => intro l; simp [listIsPrefixOf]
  | cons a as ih =>
    intro l
    cases l with
    | nil =>
      simp only [listIsPrefixOf]
      constructor
      · intro h; exact absurd h (by simp)
      · rintro ⟨t, ht⟩; exact absurd ht (by simp)
    | cons b bs =>
      rw [listIsPrefixOf, Bool.and_eq_true]
      constructor
      · rintro ⟨h1, h2⟩
        obtain ⟨t, rfl⟩ := (ih bs).1 h2
        exact ⟨t, by simp [show a = b by simpa using h1]⟩
      · rintro ⟨t, ht⟩
        rw [List.cons_append, List.cons.injEq] at ht
        exact ⟨by simp [ht.1], (ih bs).2 ⟨t, ht.2⟩⟩

theorem listIsInfix_iff (small : List Char) :
    ∀ big, listIsInfix small big = true ↔ ∃ p s, big = p ++ small ++ s := by
  intro big
  induction big with
  | nil =>
    rw [listIsInfix]
    constructor
    · intro h
      refine ⟨[], [], ?_⟩
      have hsm : small = [] := by simpa [List.isEmpty_iff] using h
      simp [hsm]
    · rintro ⟨p, s, hps⟩
      have h2 := hps.symm
      rw [List.append_eq_nil] at h2
      have h3 := h2.1
      rw [List.append_eq_nil] at h3
      simp [List.isEmpty_iff, h3.2]
  | cons c rest ih =>
    rw [listIsInfix, Bool.or_eq_true, listIsPrefixOf_iff, ih]
    constructor
    · rintro (⟨t, ht⟩ | ⟨p, s, hps⟩)
      · exact ⟨[], t, by simp [ht]⟩
      · exact ⟨c :: p, s, by simp [hps]⟩
    · rintro ⟨p, s, hps⟩
      cases p with
      | nil => exact Or.inl ⟨s, by simpa using hps⟩
      | cons c2 p2 =>
        rw [List.cons_append, List.cons_append, List.cons.injEq] at hps
        exact Or.inr ⟨p2, s, hps.2⟩

theorem strIn_iff (small big : String) :
    strIn small big = true ↔ ∃ p s, big = p ++ small ++ s := by
  rw [strIn, listIsInfix_iff]
  constructor
  · rintro ⟨p, s, hps⟩
    refine ⟨⟨p⟩, ⟨s⟩, ?_⟩
    have hmk : (⟨p⟩ : String) ++ small ++ (⟨s⟩ : String)
        = ⟨p ++ small.data ++ s⟩ := by
      cases small with | mk d => rfl
    rw [hmk, ← hps]
  · rintro ⟨p, s, rfl⟩
    exact ⟨p.data, s.data, rfl⟩

theorem inter_card_eq_filter_length (l1 l2 : List String) :
    (l1.toFinset ∩ l2.toFinset).card
      = (l1.dedup.filter (fun w => decide (w ∈ l2.dedup))).length := by
  have hnd : (l1.dedup.filter (fun w => decide (w ∈ l2.dedup))).Nodup :=
    (List.nodup_dedup l1).filter _
  rw [← List.toFinset_card_of_nodup hnd]
  congr 1
  apply Finset.ext
  intro x
  simp [List.mem_toFinset, List.mem_filter, List.mem_dedup, Finset.mem_inter]

theorem half_le_div_iff (a b : ℕ) (hb : 0 < b) :
    ((a : ℚ) / (b : ℚ) ≥ 1 / 2) ↔ 2 * a ≥ b := by
  rw [ge_iff_le, div_le_div_iff₀ (by norm_num : (0 : ℚ) < 2)
    (by exact_mod_cast hb)]
  constructor
  · intro h
    have h2 : (b : ℚ) ≤ 2 * a := by linarith
    exact_mod_cast h2
  · intro h
    have h2 : (b : ℚ) ≤ 2 * a := by exact_mod_cast h
    linarith

/-- The source's fuzzy match agrees exactly with the specification's
matching rule. -/
theorem contextsMatch_iff (name1 name2 : String) :
    contextsMatch name1 name2 = true ↔ contextsMatchSpec name1 name2 := by
  rw [contextsMatch, contextsMatchSpec]
  set n1 := normalizeContextName name1 with hn1
  set n2 := normalizeContextName name2 with hn2
  by_cases heq : n1 = n2
  · simp [heq]
  · rw [if_neg heq]
    by_cases hin : (strIn n1 n2 || strIn n2 n1) = true
    · rw [if_pos hin]
      rw [Bool.or_eq_true, strIn_iff, strIn_iff] at hin
      constructor
      · intro _
        rcases hin with h | h
        · exact Or.inr (Or.inl h)
        · exact Or.inr (Or.inr (Or.inl h))
      · intro _; rfl
    · rw [if_neg hin]
      have hinn : ¬(∃ p s, n2 = p ++ n1 ++ s) ∧ ¬(∃ p s, n1 = p ++ n2 ++ s) := by
        constructor <;> intro hex <;> apply hin <;> rw [Bool.or_eq_true]
        · exact Or.inl ((strIn_iff _ _).2 hex)
        · exact Or.inr ((strIn_iff _ _).2 hex)
      have hcard1 : (pyWords n1).toFinset.card = (pyWords n1).dedup.length :=
        List.card_toFinset _
      have hcard2 : (pyWords n2).toFinset.card = (pyWords n2).dedup.length :=
        List.card_toFinset _
      by_cases hguard : ((pyWords n1).dedup.isEmpty
          || (pyWords n2).dedup.isEmpty) = true
      · rw [if_pos hguard]
        rw [Bool.or_eq_true, List.isEmpty_iff, List.isEmpty_iff] at hguard
        constructor
        · intro h; exact absurd h (by simp)
        · rintro (h | h | h | ⟨hpos, _⟩)
          · exact absurd h heq
          · exact absurd h hinn.1
          · exact absurd h hinn.2
          · rcases hguard with h0 | h0 <;>
              rw [lt_min_iff] at hpos
            · rw [hcard1, h0] at hpos
              exact absurd hpos.1 (by simp)
            · rw [hcard2, h0] at hpos
              exact absurd hpos.2 (by simp)
      · rw [if_neg hguard]
        have hb : 0 < (pyWords n1).dedup.length ∧ 0 < (pyWords n2).dedup.length := by
          rw [Bool.or_eq_true] at hguard
          push_neg at hguard
          constructor
          · rcases List.eq_nil_or_concat (pyWords n1).dedup with h0 | ⟨_, _, h0⟩
            · exact absurd (by rw [h0]; rfl) hguard.1
            · rw [h0]; simp
          · rcases List.eq_nil_or_concat (pyWords n2).dedup with h0 | ⟨_, _, h0⟩
            · exact absurd (by rw [h0]; rfl) hguard.2
            · rw [h0]; simp
        have hminpos : 0 < min (pyWords n1).toFinset.card (pyWords n2).toFinset.card := by
          rw [lt_min_iff, hcard1, hcard2]
          exact hb
        rw [decide_eq_true_eq]
        constructor
        · intro h
          refine Or.inr (Or.inr (Or.inr ⟨hminpos, ?_⟩))
          rw [half_le_div_iff _ _ hminpos, inter_card_eq_filter_length,
            hcard1, hcard2]
          exact h
        · rintro (h | h | h | ⟨_, hdiv⟩)
          · exact absurd h heq
          · exact absurd h hinn.1
          · exact absurd h hinn.2
          · rw [half_le_div_iff _ _ hminpos, inter_card_eq_filter_length,
              hcard1, hcard2] at hdiv
            exact hdiv

/-- C6: the resolver's fuzzy match is exactly the spec's rule — normalize
both names (lowercase, underscore/hyphen to space, trim) and match on
normalized equality, containment, or token-set overlap of at least half
the smaller set — and when any cached context matches, the first match in
cache order is returned with no context created (cache and store are
untouched). -/
theorem context_resolver_match_and_first_wins :
    (∀ name1 name2, contextsMatch name1 name2 = true ↔
      contextsMatchSpec name1 name2) ∧
    (∀ (env : ResolverEnv) (store : Store) (name pid : String)
        (existing : List MemoryContext) (chunk : ChunkData)
        (ctx : MemoryContext),
      existing.find? (fun c => contextsMatch name c.name) = some ctx →
      resolveSingleContext env store name pid existing chunk
        = (some ctx.id, existing, store)) :=
  ⟨contextsMatch_iff, by
    intro env store name pid existing chunk ctx hfind
    rw [resolveSingleContext, hfind]⟩

/-- Witness for C6: resolving `"Project Planning"` against a project whose
cache holds `"project_planning"` returns that context's id and creates
nothing. -/
theorem context_resolver_match_and_first_wins_witness :
    resolveSingleContext idleResolverEnv ⟨[], [planningContext], 0⟩
        "Project Planning" "p1" [planningContext] {}
      = (some "c1", [planningContext], ⟨[], [planningContext], 0⟩) := by
  have h := context_resolver_match_and_first_wins.2 idleResolverEnv
    ⟨[], [planningContext], 0⟩ "Project Planning" "p1" [planningContext] {}
    planningContext (by decide)
  exact h

theorem dictFind_updateAssoc_self {α : Type} (m : List (String × α))
    (k : String) (v : α) : dictFind (updateAssoc m k v) k = some v := by
  induction m with
  | nil => simp [updateAssoc, dictFind, List.find?]
  | cons p rest ih =>
    obtain ⟨k2, v2⟩ := p
    rw [updateAssoc]
    by_cases hk : k2 = k
    · rw [if_pos hk]
      exact dictFind_cons_self (k2, v) rest k hk
    · rw [if_neg hk, dictFind_cons_ne (k2, v2) _ k hk]
      exact ih

theorem dictFind_updateAssoc_ne {α : Type} (m : List (String × α))
    (k k2 : String) (v : α) (h : k2 ≠ k) :
    dictFind (updateAssoc m k v) k2 = dictFind m k2 := by
  induction m with
  | nil =>
    rw [updateAssoc, dictFind_cons_ne (k, v) [] k2 (fun hh => h hh.symm)]
  | cons p rest ih =>
    obtain ⟨ka, va⟩ := p
    rw [updateAssoc]
    by_cases hk : ka = k
    · rw [if_pos hk]
      rw [dictFind_cons_ne (ka, v) rest k2 (by rw [hk]; exact fun hh => h hh.symm),
        dictFind_cons_ne (ka, va) rest k2 (by rw [hk]; exact fun hh => h hh.symm)]
    · rw [if_neg hk]
      by_cases hk2 : ka = k2
      · rw [dictFind_cons_self (ka, va) _ k2 hk2,
          dictFind_cons_self (ka, va) rest k2 hk2]
      · rw [dictFind_cons_ne (ka, va) _ k2 hk2,
          dictFind_cons_ne (ka, va) rest k2 hk2]
        exact ih

theorem dictFind_groupAppend (m : List (String × List SearchResult))
    (k : String) (sr : SearchResult) (k2 : String) :
    dictFind (groupAppend m k sr) k2 =
      if k2 = k then some ((dictFind m k).getD [] ++ [sr])
      else dictFind m k2 := by
  induction m with
  | nil =>
    rw [groupAppend]
    by_cases hk : k2 = k
    · rw [if_pos hk, dictFind_cons_self (k, [sr]) [] k2 (by rw [hk])]
      rfl
    · rw [if_neg hk, dictFind_cons_ne (k, [sr]) [] k2 (fun hh => hk hh.symm)]
  | cons p rest ih =>
    obtain ⟨ka, la⟩ := p
    rw [groupAppend]
    by_cases hka : ka = k
    · rw [if_pos hka]
      by_cases hk : k2 = k
      · rw [dictFind_cons_self (ka, la ++ [sr]) rest k2 (by rw [hka, hk]),
          if_pos hk, dictFind_cons_self (ka, la) rest k (by rw [hka])]
        rfl
      · rw [dictFind_cons_ne (ka, la ++ [sr]) rest k2 (by rw [hka]; exact fun hh => hk hh.symm),
          if_neg hk, dictFind_cons_ne (ka, la) rest k2 (by rw [hka]; exact fun hh => hk hh.symm)]
    · rw [if_neg hka]
      by_cases hk2 : ka = k2
      · rw [dictFind_cons_self (ka, la) _ k2 hk2,
          dictFind_cons_self (ka, la) rest k2 hk2]
        rw [if_neg (fun hh : k2 = k => hka (hk2.trans hh))]
      · rw [dictFind_cons_ne (ka, la) _ k2 hk2, ih,
          dictFind_cons_ne (ka, la) rest k2 hk2]
        by_cases hk : k2 = k
        · rw [if_pos hk, if_pos hk,
            dictFind_cons_ne (ka, la) rest k (fun hh => hka hh)]
        · rw [if_neg hk, if_neg hk]

theorem dictFind_groupByContext (cid : String) :
    ∀ (rs : List SearchResult) (acc : List (String × List SearchResult)),
      dictFind (groupByContext rs acc) cid =
        if (dictFind acc cid).isSome
            ∨ rs.filter (fun sr => firstContextId sr.fragment = cid) ≠ [] then
          some ((dictFind acc cid).getD []
            ++ rs.filter (fun sr => firstContextId sr.fragment = cid))
        else none := by
  intro rs
  induction rs with
  | nil =>
    intro acc
    rw [groupByContext]
    simp only [List.filter_nil, List.append_nil, ne_eq, not_true_eq_false,
      or_false]
    cases hfind : dictFind acc cid with
    | none => simp
    | some l => simp
  | cons sr rest ih =>
    intro acc
    rw [groupByContext, ih,
      dictFind_groupAppend acc (firstContextId sr.fragment) sr cid,
      List.filter_cons]
    by_cases hc : firstContextId sr.fragment = cid
    · rw [if_pos hc.symm, if_pos (show decide (firstContextId sr.fragment = cid)
        = true by simpa using hc)]
      have hL : (some ((dictFind acc (firstContextId sr.fragment)).getD []
            ++ [sr])).isSome = true ∨
          List.filter (fun sr => decide (firstContextId sr.fragment = cid))
            rest ≠ [] := Or.inl rfl
      have hR : (dictFind acc cid).isSome = true ∨
          sr :: List.filter (fun sr => decide (firstContextId sr.fragment = cid))
            rest ≠ [] := Or.inr (List.cons_ne_nil _ _)
      rw [if_pos hL, if_pos hR, hc]
      simp [List.append_assoc]
    · rw [if_neg (fun hh : cid = firstContextId sr.fragment => hc hh.symm),
        if_neg (show ¬decide (firstContextId sr.fragment = cid) = true by
          simpa using hc)]

theorem dictFind_searchMemoryLoop (searchFn : String → List SearchResult) :
    ∀ (targets : List String)
      (acc : List (String × List (String × List SearchResult)))
      (pid : String),
      dictFind (searchMemoryLoop searchFn targets acc) pid =
        if pid ∈ targets ∧ searchFn pid ≠ [] then
          some (groupByContext (searchFn pid) [])
        else dictFind acc pid := by
  intro targets
  induction targets with
  | nil =>
    intro acc pid
    rw [searchMemoryLoop, if_neg (fun hcon => by simpa using hcon.1)]
  | cons t ts ih =>
    intro acc pid
    rw [searchMemoryLoop]
    by_cases hemp : (searchFn t).isEmpty = true
    · rw [if_pos hemp, ih]
      by_cases hpt : pid = t
      · have hse : searchFn pid = [] := by
          rw [hpt]; exact List.isEmpty_iff.1 hemp
        rw [if_neg (fun hcon => hcon.2 hse),
          if_neg (fun hcon => hcon.2 hse)]
      · by_cases hmem : pid ∈ ts ∧ searchFn pid ≠ []
        · rw [if_pos hmem, if_pos ⟨List.mem_cons_of_mem t hmem.1, hmem.2⟩]
        · rw [if_neg hmem, if_neg (fun hcon => hmem
            ⟨(List.mem_cons.1 hcon.1).resolve_left hpt, hcon.2⟩)]
    · rw [if_neg hemp, ih]
      by_cases hmem : pid ∈ ts ∧ searchFn pid ≠ []
      · rw [if_pos hmem, if_pos ⟨List.mem_cons_of_mem t hmem.1, hmem.2⟩]
      · rw [if_neg hmem]
        by_cases hpt : pid = t
        · subst hpt
          rw [dictFind_updateAssoc_self,
            if_pos ⟨List.mem_cons_self pid ts,
              fun hnil => hemp (List.isEmpty_iff.2 hnil)⟩]
        · rw [dictFind_updateAssoc_ne _ _ _ _ hpt,
            if_neg (fun hcon => hmem
              ⟨(List.mem_cons.1 hcon.1).resolve_left hpt, hcon.2⟩)]

/-- C7: in the grouped result of `search_memory`, a project id is present
exactly when it is a search target with a nonempty hit list (projects with
zero hits are absent); within a present project, a context id is present
exactly when some hit has it as its fragment's first context id — the
`"unassigned"` sentinel when the fragment has no contexts — and its bucket
is precisely the hits with that first context, in order (would-be empty
context groups are absent). -/
theorem grouped_recall_buckets (searchFn : String → List SearchResult)
    (targets : List String) :
    (∀ pid, dictFind (searchMemoryGrouped searchFn targets) pid =
        if pid ∈ targets ∧ searchFn pid ≠ [] then
          some (groupByContext (searchFn pid) [])
        else none) ∧
    (∀ pid groups,
      dictFind (searchMemoryGrouped searchFn targets) pid = some groups →
      ∀ cid, dictFind groups cid =
        if (searchFn pid).filter (fun sr => firstContextId sr.fragment = cid)
            = [] then none
        else some ((searchFn pid).filter
          (fun sr => firstContextId sr.fragment = cid))) := by
  have hmain : ∀ pid, dictFind (searchMemoryGrouped searchFn targets) pid =
      if pid ∈ targets ∧ searchFn pid ≠ [] then
        some (groupByContext (searchFn pid) [])
      else none := by
    intro pid
    rw [searchMemoryGrouped, dictFind_searchMemoryLoop]
    rfl
  refine ⟨hmain, ?_⟩
  intro pid groups hg cid
  rw [hmain pid] at hg
  by_cases hmem : pid ∈ targets ∧ searchFn pid ≠ []
  · rw [if_pos hmem] at hg
    have hgroups : groups = groupByContext (searchFn pid) [] := by
      injection hg.symm
    subst hgroups
    rw [dictFind_groupByContext]
    by_cases hfil : (searchFn pid).filter
        (fun sr => firstContextId sr.fragment = cid) = []
    · rw [if_pos hfil, if_neg]
      rintro (h | h)
      · simp [dictFind] at h
      · exact h hfil
    · rw [if_neg hfil, if_pos (Or.inr hfil)]
      simp [dictFind]
  · rw [if_neg hmem] at hg
    exact absurd hg (by simp)

/-- Witness for C7: recall over `["p1", "p2"]` where only `p1` has hits
yields a mapping containing `"p1"` (bucketed under `"ctx9"`) and no key
`"p2"`. -/
theorem grouped_recall_buckets_witness :
    dictFind (searchMemoryGrouped recallWitnessFn ["p1", "p2"]) "p1"
        = some (groupByContext (recallWitnessFn "p1") []) ∧
    dictFind (searchMemoryGrouped recallWitnessFn ["p1", "p2"]) "p2" = none := by
  have h := grouped_recall_buckets recallWitnessFn ["p1", "p2"]
  constructor
  · rw [h.1 "p1", if_pos ⟨by decide, by decide⟩]
  · rw [h.1 "p2", if_neg (fun hcon => hcon.2 (by decide))]

/-- C9: `synthesize_contextual` is total over every provider outcome — its
three exhaustive cases are: enriched structured result on success; the
legacy retry's result (over the flattened grouping) when the contextual
call fails; and, when the legacy call fails too, the low-confidence
fallback built only from the count of retrieved fragments.  Every
provider failure is caught (the store getters used while rendering return
`None` rather than raising), so no input makes the call raise. -/
theorem synthesize_contextual_fallback_chain (env : SynthEnv) (query : String)
    (grouped : List (String × List (String × List SearchResult))) :
    (∀ s, env.contextualResp
        (renderContextualPrompt env.getProject env.getContext grouped)
          = .ok s →
      synthesizeContextual env query grouped =
        { s with
          synthesis_type := some "contextual"
          projects_used := some grouped.length
          contexts_used :=
            some (allContextsInfo env.getContext grouped).length }) ∧
    (∀ e, env.contextualResp
        (renderContextualPrompt env.getProject env.getContext grouped)
          = .error e →
      synthesizeContextual env query grouped
        = synthesizeLegacy env.legacyResp query (flattenGrouped grouped)) ∧
    (∀ e e2, env.contextualResp
        (renderContextualPrompt env.getProject env.getContext grouped)
          = .error e →
      env.legacyResp (flattenGrouped grouped) = .error e2 →
      synthesizeContextual env query grouped
        = fallbackSynthesis query (flattenGrouped grouped).length) := by
  refine ⟨?_, ?_, ?_⟩
  · intro s hs
    rw [synthesizeContextual, hs]
  · intro e he
    rw [synthesizeContextual, he]
  · intro e e2 he he2
    rw [synthesizeContextual, he, synthesizeLegacy, he2]

/-- Witness for C9: with both provider calls failing on a one-hit
grouping, the synthesizer returns the count-based fallback (confidence
`0.3`) instead of raising. -/
theorem synthesize_contextual_fallback_chain_witness :
    synthesizeContextual failingSynthEnv "query"
        [("p1", [("c1", [synthWitnessHit])])]
      = fallbackSynthesis "query" 1 :=
  (synthesize_contextual_fallback_chain failingSynthEnv "query"
      [("p1", [("c1", [synthWitnessHit])])]).2.2
    (.schemaViolation "contextual parse") (.providerError "legacy call")
    (by rfl) (by rfl)

/-- A failing decision call propagates unchanged out of `curate_and_chunk`
and the store is exactly the input store. -/
theorem curateAndChunk_decision_error (env : CurateEnv) (store : Store)
    (content pid : String) (e : PyError)
    (h : ∀ p, env.generateDecision p = .error e) :
    curateAndChunk env store content pid = (.error e, store) := by
  simp only [curateAndChunk, h, getCurationDecision]

/-- When the fallback `"general"` context can be created, the fragment
loop of the apply phase never raises: every other failure inside it is
caught per entry. -/
theorem applyFragmentsLoop_ok (env : CurateEnv) (pid : String)
    (hgen : env.createContextFails "general" = false) :
    ∀ (fs : List FragmentToCreate) (cmap : List (String × String))
      (created : List String) (byCtx : List (String × List String))
      (store : Store),
      ∃ res store2,
        applyFragmentsLoop env pid fs cmap created byCtx store
          = (.ok res, store2) := by
  intro fs
  induction fs with
  | nil =>
    intro cmap created byCtx store
    exact ⟨(created, byCtx), store, rfl⟩
  | cons f rest ih =>
    intro cmap created byCtx store
    rw [applyFragmentsLoop]
    by_cases hval : f.content ≠ "" ∧ pyStrip f.content ≠ "" ∧ f.context_name ≠ ""
    · rw [if_pos hval]
      have hres : ∃ cid cmap2 store2,
          (match dictFind cmap f.context_name with
           | some cid => Except.ok (cid, cmap, store)
           | none =>
             match dictFind cmap "general" with
             | some gid => Except.ok (gid, cmap, store)
             | none =>
               match createContextOp env.createContextFails store pid "general"
                   "Contenedor para fragmentos sin un contexto específico." with
               | .error e => Except.error e
               | .ok (gid, store2) =>
                 Except.ok (gid, dictInsert cmap "general" gid, store2))
            = (Except.ok (cid, cmap2, store2) :
                Except PyError (String × List (String × String) × Store)) := by
        cases h1 : dictFind cmap f.context_name with
        | some cid => exact ⟨cid, cmap, store, by simp only [h1]⟩
        | none =>
          cases h2 : dictFind cmap "general" with
          | some gid => exact ⟨gid, cmap, store, by simp only [h1, h2]⟩
          | none =>
            cases h3 : createContextOp env.createContextFails store pid "general"
                "Contenedor para fragmentos sin un contexto específico." with
            | ok pr =>
              obtain ⟨gid, store2⟩ := pr
              exact ⟨gid, dictInsert cmap "general" gid, store2,
                by simp only [h1, h2, h3]⟩
            | error e =>
              exact absurd h3 (by simp [createContextOp, hgen])
      obtain ⟨cid, cmap2, store2, hres⟩ := hres
      rw [hres]
      cases h3 : storeFragmentOp env.storeFragmentFails env.maxContentLength
          store2 pid f.content "general" "curated_ingestion" [cid] with
      | ok pr =>
        obtain ⟨fid, store3⟩ := pr
        simp only [h3]
        exact ih cmap2 (created ++ [fid]) (multiDictAppend byCtx cid fid) store3
      | error e2 =>
        simp only [h3]
        exact ih cmap2 created byCtx store2
    · rw [if_neg hval]
      exact ih cmap created byCtx store

/-- Every successful apply reports `deleted_ids` as the decision's
`ids_to_delete` list verbatim. -/
theorem applyCurationDecision_deleted_ids (env : CurateEnv) (store : Store)
    (decision : CurationDecision) (pid : String)
    (existing : List MemoryContext) (r : CurateResult) (store2 : Store)
    (h : applyCurationDecision env store decision pid existing
      = (.ok r, store2)) :
    r.deleted_ids = decision.ids_to_delete := by
  simp only [applyCurationDecision] at h
  split at h
  · exact absurd h (by simp)
  · rename_i heq
    injection h with h1 h2
    injection h1 with h1
    rw [← h1]

/-- C1: when the curation-decision provider call fails — transport error or
schema-violating output — `curate_and_chunk` surfaces that same failure to
the caller, and at that point the store is exactly the input store: no
fragment or context has been created, no fragment deleted, and no
synthetic default decision substituted. -/
theorem curate_decision_failure_surfaced (env : CurateEnv) (store : Store)
    (content pid : String) (e : PyError)
    (h : ∀ p, env.generateDecision p = .error e) :
    curateAndChunk env store content pid = (.error e, store) :=
  curateAndChunk_decision_error env store content pid e h

/-- Witness for C1 at a concrete store and content. -/
theorem curate_decision_failure_surfaced_witness :
    curateAndChunk decisionFailEnv ⟨[], [], 0⟩ "nuevo contenido" "p1"
      = (.error (.schemaViolation "curation decision"), ⟨[], [], 0⟩) :=
  curate_decision_failure_surfaced decisionFailEnv ⟨[], [], 0⟩
    "nuevo contenido" "p1" (.schemaViolation "curation decision")
    (fun _ => rfl)

/-- C2, counterexample: the claim's exception is wrong on both sides.  A
failure of step 2 (listing the project's contexts) is *not* fatal — with
the listing raising (and the search, too), `curate_and_chunk` still
completes successfully — while a failure of the decision call (a step the
claim says degrades to an empty result) *is* fatal. -/
theorem curate_steps_claim_counterexample :
    (curateAndChunk listFailEnv ⟨[], [planningContext], 0⟩ "texto" "p1").1
        = .ok { created_fragment_ids := [], created_context_ids := [],
                deleted_ids := [] } ∧
    (curateAndChunk decisionFailEnv ⟨[], [], 0⟩ "texto" "p1").1
        = .error (.schemaViolation "curation decision") :=
  ⟨rfl, rfl⟩

/-- C2 (amended): the similarity search (step 1) and the context listing
degrade to empty inputs rather than aborting — whatever their outcome,
`curate_and_chunk` completes whenever the decision call succeeds and the
lazy `"general"`-context creation cannot fail — while a failure of the
curation-decision call (step 3) is fatal to the call. -/
theorem curate_fault_tolerance_amended (env : CurateEnv) (store : Store)
    (content pid : String) :
    (∀ e, (∀ p, env.generateDecision p = .error e) →
      (curateAndChunk env store content pid).1 = .error e) ∧
    (∀ j, (∀ p, env.generateDecision p = .ok j) →
      env.createContextFails "general" = false →
      exceptOk (curateAndChunk env store content pid).1 = true) := by
  constructor
  · intro e h
    rw [curateAndChunk_decision_error env store content pid e h]
  · intro j hok hgen
    simp only [curateAndChunk, hok, getCurationDecision, applyCurationDecision]
    obtain ⟨res, store3, hfrag⟩ := applyFragmentsLoop_ok env pid hgen
      (j.fragments_to_create.getD [])
      (applyContextsLoop env pid (j.contexts_to_create.getD [])
        ((if env.listContextsOk then store.listContextsByProject pid
          else []).foldl (fun m c => dictInsert m c.name c.id) [])
        [] (if (j.ids_to_delete.getD []) ≠ [] then
          (deleteFragmentsOp env.deleteFails store (j.ids_to_delete.getD [])).2
        else store)).1
      [] []
      (applyContextsLoop env pid (j.contexts_to_create.getD [])
        ((if env.listContextsOk then store.listContextsByProject pid
          else []).foldl (fun m c => dictInsert m c.name c.id) [])
        [] (if (j.ids_to_delete.getD []) ≠ [] then
          (deleteFragmentsOp env.deleteFails store (j.ids_to_delete.getD [])).2
        else store)).2.2
    obtain ⟨created, byCtx⟩ := res
    rw [hfrag]
    rfl

/-- Witness for the amended C2: with the search and the listing both
failing but the decision succeeding, the call completes. -/
theorem curate_fault_tolerance_amended_witness :
    exceptOk (curateAndChunk listFailEnv ⟨[], [planningContext], 0⟩
      "texto" "p1").1 = true :=
  (curate_fault_tolerance_amended listFailEnv ⟨[], [planningContext], 0⟩
    "texto" "p1").2 {} (fun _ => rfl) rfl

/-- C10: the memory layer's `delete_fragments` swallows store errors and
returns `False` without raising and without deleting, and the curator
never inspects that boolean — every successful curation call reports the
decision's `ids_to_delete` verbatim as `deleted_ids`, so a call whose
batch delete failed still reports those ids as deleted. -/
theorem deleted_ids_reported_verbatim (env : CurateEnv) (store : Store)
    (decision : CurationDecision) (pid : String)
    (existing : List MemoryContext)
    (hfail : env.deleteFails = true) (hne : decision.ids_to_delete ≠ []) :
    deleteFragmentsOp env.deleteFails store decision.ids_to_delete
        = (false, store) ∧
    (∀ r store2,
      applyCurationDecision env store decision pid existing = (.ok r, store2) →
      r.deleted_ids = decision.ids_to_delete) := by
  constructor
  · rw [deleteFragmentsOp, if_neg (by simp [hne]), if_pos hfail]
  · intro r store2 h
    exact applyCurationDecision_deleted_ids env store decision pid existing
      r store2 h

/-- Witness for C10: the failed delete returns `False` with the fragment
still present, and the apply result reports `"f1"` as deleted anyway. -/
theorem deleted_ids_reported_verbatim_witness :
    deleteFragmentsOp deleteFailEnv.deleteFails ⟨[fragF1], [], 0⟩ ["f1"]
        = (false, ⟨[fragF1], [], 0⟩) ∧
    ({ created_fragment_ids := [], created_context_ids := [],
       deleted_ids := ["f1"] } : CurateResult).deleted_ids = ["f1"] := by
  have h := deleted_ids_reported_verbatim deleteFailEnv ⟨[fragF1], [], 0⟩
    { contexts_to_create := [], fragments_to_create := [],
      ids_to_delete := ["f1"] } "p1" [] rfl (by decide)
  exact ⟨h.1, h.2 _ _ rfl⟩

theorem contextId_map_update (c : MemoryContext) (cid : String)
    (ids : List String) :
    (if c.id = cid then { c with fragment_ids := ids } else c).id = c.id := by
  by_cases h : c.id = cid
  · rw [if_pos h]
  · rw [if_neg h]

theorem find?_map_update_ne (contexts : List MemoryContext) (cid cid2 : String)
    (ids : List String) (h : cid2 ≠ cid) :
    (contexts.map (fun c => if c.id = cid then { c with fragment_ids := ids }
      else c)).find? (fun c => c.id = cid2)
      = contexts.find? (fun c => c.id = cid2) := by
  induction contexts with
  | nil => rfl
  | cons c rest ih =>
    rw [List.map_cons]
    by_cases hc : c.id = cid2
    · rw [List.find?_cons_of_pos _ (by simp only [contextId_map_update]; simp [hc]),
        List.find?_cons_of_pos _ (by simp [hc])]
      rw [if_neg (fun hcc => h (hc.symm.trans hcc))]
    · rw [List.find?_cons_of_neg _ (by simp only [contextId_map_update]; simp [hc]),
        List.find?_cons_of_neg _ (by simp [hc]), ih]

theorem find?_map_update_self (contexts : List MemoryContext) (cid : String)
    (ids : List String) (ctx : MemoryContext)
    (h : contexts.find? (fun c => c.id = cid) = some ctx) :
    (contexts.map (fun c => if c.id = cid then { c with fragment_ids := ids }
      else c)).find? (fun c => c.id = cid)
      = some { ctx with fragment_ids := ids } := by
  induction contexts with
  | nil => exact absurd h (by simp)
  | cons c rest ih =>
    rw [List.map_cons]
    by_cases hc : c.id = cid
    · rw [List.find?_cons_of_pos _ (by simp [hc])] at h
      injection h with h
      subst h
      rw [List.find?_cons_of_pos _ (by simp only [contextId_map_update]; simp [hc])]
      rw [if_pos hc]
    · rw [List.find?_cons_of_neg _ (by simp [hc])] at h
      rw [List.find?_cons_of_neg _ (by simp only [contextId_map_update]; simp [hc])]
      exact ih h

theorem getContext_updateOp_ne (fail : Bool) (store : Store)
    (cid cid2 : String) (ids : List String) (h : cid2 ≠ cid) :
    (updateContextFragmentsOp fail store cid ids).2.getContext cid2
      = store.getContext cid2 := by
  rw [updateContextFragmentsOp]
  by_cases hf : fail = true
  · rw [if_pos hf]
  · rw [if_neg hf]
    by_cases hs : (store.getContext cid).isSome = true
    · rw [if_pos hs]
      simp only [Store.getContext]
      exact find?_map_update_ne store.contexts cid cid2 ids h
    · rw [if_neg hs]

theorem getContext_updateOp_self (store : Store) (cid : String)
    (ids : List String) (ctx : MemoryContext)
    (h : store.getContext cid = some ctx) :
    (updateContextFragmentsOp false store cid ids).2.getContext cid
      = some { ctx with fragment_ids := ids } := by
  rw [updateContextFragmentsOp, if_neg (by simp), if_pos (by rw [h]; rfl)]
  simp only [Store.getContext] at h ⊢
  exact find?_map_update_self store.contexts cid ids ctx h

theorem updateMembershipLoop_preserve (env : CurateEnv) :
    ∀ (pairs : List (String × List String)) (store : Store) (cid : String),
      (∀ p ∈ pairs, p.1 ≠ cid) →
      (updateMembershipLoop env pairs store).getContext cid
        = store.getContext cid := by
  intro pairs
  induction pairs with
  | nil => intro store cid _; rfl
  | cons p rest ih =>
    intro store cid hne
    obtain ⟨k, ids⟩ := p
    have hk : k ≠ cid := hne (k, ids) (by simp)
    have hrest : ∀ q ∈ rest, q.1 ≠ cid := fun q hq => hne q (by simp [hq])
    rw [updateMembershipLoop]
    by_cases hemp : ids.isEmpty = true
    · rw [if_pos hemp]; exact ih store cid hrest
    · rw [if_neg hemp]
      cases hg : store.getContext k with
      | none => simp only [hg]; exact ih store cid hrest
      | some ctxk =>
        simp only [hg]
        rw [ih _ cid hrest,
          getContext_updateOp_ne _ _ _ _ _ (fun hcc => hk hcc.symm)]

/-- C3: for every context that received new fragments during apply step
4d, the membership written back is read-modify-write — equal, as a
deduplicated list, to the union of the membership fetched from the store
with the new fragment ids — never a blind overwrite by the new ids
alone. -/
theorem membership_update_read_modify_write (env : CurateEnv) :
    ∀ (pairs : List (String × List String)) (store : Store) (cid : String)
      (newIds : List String) (ctx : MemoryContext),
      (cid, newIds) ∈ pairs →
      (pairs.map Prod.fst).Nodup →
      store.getContext cid = some ctx →
      env.updateContextFails cid = false →
      newIds ≠ [] →
      (updateMembershipLoop env pairs store).getContext cid
          = some { ctx with
              fragment_ids := (ctx.fragment_ids ++ newIds).dedup } ∧
      ((ctx.fragment_ids ++ newIds).dedup).Nodup ∧
      (∀ x, x ∈ (ctx.fragment_ids ++ newIds).dedup ↔
        x ∈ ctx.fragment_ids ∨ x ∈ newIds) := by
  intro pairs
  induction pairs with
  | nil =>
    intro store cid newIds ctx hmem
    exact absurd hmem (by simp)
  | cons p rest ih =>
    intro store cid newIds ctx hmem hnd hget hfail hne
    refine ⟨?_, List.nodup_dedup _, fun x => by
      rw [List.mem_dedup, List.mem_append]⟩
    obtain ⟨k, ids⟩ := p
    rw [List.map_cons] at hnd
    rcases List.mem_cons.1 hmem with hhead | htail
    · have h1 : cid = k := congrArg Prod.fst hhead
      have h2 : newIds = ids := congrArg Prod.snd hhead
      subst h1
      subst h2
      rw [updateMembershipLoop, if_neg (by simpa using hne)]
      simp only [hget, hfail]
      have hnodup_rest : ∀ q ∈ rest, q.1 ≠ cid := by
        intro q hq hq1
        have hmm : q.1 ∈ List.map Prod.fst rest :=
          List.mem_map_of_mem Prod.fst hq
        rw [hq1] at hmm
        exact (List.nodup_cons.1 hnd).1 hmm
      rw [updateMembershipLoop_preserve env rest _ cid hnodup_rest]
      exact getContext_updateOp_self store cid _ ctx hget
    · have hk : k ≠ cid := by
        intro hkc
        have hmm : cid ∈ List.map Prod.fst rest :=
          List.mem_map_of_mem Prod.fst htail
        rw [← hkc] at hmm
        exact (List.nodup_cons.1 hnd).1 hmm
      have hndrest : (rest.map Prod.fst).Nodup :=
        (List.nodup_cons.1 hnd).2
      rw [updateMembershipLoop]
      by_cases hemp : ids.isEmpty = true
      · rw [if_pos hemp]
        exact (ih store cid newIds ctx htail hndrest hget hfail hne).1
      · rw [if_neg hemp]
        cases hg : store.getContext k with
        | none =>
          simp only [hg]
          exact (ih store cid newIds ctx htail hndrest hget hfail hne).1
        | some ctxk =>
          simp only [hg]
          refine (ih _ cid newIds ctx htail hndrest ?_ hfail hne).1
          rw [getContext_updateOp_ne _ _ _ _ _ (fun hcc => hk hcc.symm)]
          exact hget

/-- Witness for C3: a context holding `["a"]` that received new fragments
`["b", "a"]` ends up with the deduplicated union, not just the new ids. -/
theorem membership_update_read_modify_write_witness :
    (updateMembershipLoop allOkCurateEnv [("c1", ["b", "a"])]
        ⟨[], [ctxC1], 0⟩).getContext "c1"
      = some { ctxC1 with
          fragment_ids := (ctxC1.fragment_ids ++ ["b", "a"]).dedup } :=
  (membership_update_read_modify_write allOkCurateEnv [("c1", ["b", "a"])]
    ⟨[], [ctxC1], 0⟩ "c1" ["b", "a"] ctxC1 (by decide) (by decide) (by decide)
    rfl (by decide)).1

end Memoire
